import Mathlib

/-!
Verification of the CryptFS repository (Go) against its natural-language
specification, through a shallow embedding of the relevant source functions.

Conventions of the embedding:
* Go byte slices / strings are `List Nat` (one `Nat` per byte).
* Go maps from byte strings to byte slices are association lists, newest
  binding first (`memPut` conses; `memGet` returns the first hit), which is
  extensionally the Go map assignment/lookup semantics.
* Go machine integers are `Nat` with explicit `% 2^w` at the operations
  where the Go code can overflow (`uint16` additions in the message decoder,
  `uint64` version arithmetic in the versioned store).
* Fallible Go code returns an explicit result inductive; Go runtime panics
  (out-of-range slicing) are a distinct result constructor.
-/

namespace CryptFS

/-- Bytes are naturals; a byte string is a list of them. -/
abbrev Bytes := List Nat

/-- Association-list model of the Go maps used by the stores
(`map[string][]byte`). -/
abbrev Mem := List (Bytes × Bytes)

/-- Lookup in the map model: first binding wins (the most recent `memPut`). -/
def memGet : Mem → Bytes → Option Bytes
  | [], _ => none
  | (k, v) :: rest, key => if k = key then some v else memGet rest key

/-- Go map assignment `m[string(key)] = value`: shadow any older binding. -/
def memPut (key value : Bytes) (m : Mem) : Mem :=
  (key, value) :: m

/-! ### InMemorySTore (src/unnamed/part_008)

`Put` stores a copy of the value under the key; `Get` returns the stored
value, or `ErrNotFound` for an unknown key.  (The `value == nil` re-write to
an empty slice in the Go `Get` is inert here: `dup` always stores a non-nil
slice, and in the list model nil and empty coincide.) -/
/-- Store errors of `pkg/storage`. -/

inductive StoreErr where
  | notFound
  deriving DecidableEq, Repr

/-- Embeds `InMemorySTore.Get`: the stored value, or `ErrNotFound`. -/
def inMemoryGet (m : Mem) (key : Bytes) : Except StoreErr Bytes :=
  match memGet m key with
  | none => .error .notFound
  | some v => .ok v

/-- Embeds `InMemorySTore.Put`: always succeeds. -/
def inMemoryPut (m : Mem) (key value : Bytes) : Mem :=
  memPut key value m

/-! ### Big-endian integer helpers (Go `encoding/binary.BigEndian`). -/
/-- Big-endian 8-byte encoding of a `uint64` (`binary.BigEndian.PutUint64`).
Taking each byte `% 256` makes the encoding agree with Go's wrap at `2^64`. -/

def be64 (v : Nat) : Bytes :=
  [v / 2 ^ 56 % 256, v / 2 ^ 48 % 256, v / 2 ^ 40 % 256, v / 2 ^ 32 % 256,
   v / 2 ^ 24 % 256, v / 2 ^ 16 % 256, v / 2 ^ 8 % 256, v % 256]

/-- Big-endian read of the first 8 bytes (`binary.BigEndian.Uint64(b[0:8])`);
callers must know the list has at least 8 bytes (Go panics otherwise). -/
def readBe64 (b : Bytes) : Nat :=
  b.getD 0 0 * 2 ^ 56 + b.getD 1 0 * 2 ^ 48 + b.getD 2 0 * 2 ^ 40 +
    b.getD 3 0 * 2 ^ 32 + b.getD 4 0 * 2 ^ 24 + b.getD 5 0 * 2 ^ 16 +
    b.getD 6 0 * 2 ^ 8 + b.getD 7 0

/-! ### VersionedWrapper (src/unnamed/part_011, lines 80-109)

The wrapper stores `version || value` (8-byte big-endian prefix) in the raw
store.  `Put` reads the current entry; if one exists it compares the supplied
version against the stored one `+ 1` and rejects smaller versions with
`ErrStalePut`; it then writes `version || value`.  When no entry exists, no
version check happens at all. -/
/-- Result of `VersionedWrapper.Put` over the in-memory raw store: the new raw
store on success, `ErrStalePut`, or a Go panic (stored value shorter than the
8 bytes read by `binary.BigEndian.Uint64(curr[0:8])`). -/

inductive VPutResult where
  | ok (store : Mem)
  | stale
  | panicked
  deriving DecidableEq, Repr

/-- Embeds `VersionedWrapper.Put` (delegate = `InMemorySTore`, whose `Get`
fails only with `ErrNotFound`, so the non-NotFound early return is inert). -/
def versionedPut (m : Mem) (version : Nat) (key value : Bytes) : VPutResult :=
  match memGet m key with
  | none => .ok (memPut key (be64 version ++ value) m)
  | some curr =>
    if curr.length < 8 then .panicked
    else
      let expectedVersion := (readBe64 curr + 1) % 2 ^ 64
      if version % 2 ^ 64 < expectedVersion then .stale
      else .ok (memPut key (be64 version ++ value) m)

/-- Embeds `VersionedWrapper.Get`: version prefix and remaining value, or
`ErrNotFound`; panics when the stored value is shorter than 8 bytes. -/
inductive VGetResult where
  | ok (version : Nat) (value : Bytes)
  | notFound
  | panicked
  deriving DecidableEq, Repr

/-- Embeds `VersionedWrapper.Get` over the in-memory raw store. -/
def versionedGet (m : Mem) (key : Bytes) : VGetResult :=
  match memGet m key with
  | none => .notFound
  | some v => if v.length < 8 then .panicked else .ok (readBe64 v) (v.drop 8)

/-- A versioned-store state is well formed when every raw value carries the
8-byte version prefix (every value the wrapper itself writes does). -/
def VersionedWF (m : Mem) : Prop :=
  ∀ p ∈ m, 8 ≤ (p.2 : Bytes).length

instance (m : Mem) : Decidable (VersionedWF m) := by
  unfold VersionedWF
  infer_instance

/-- Convenience: the claim speaks of "the currently stored version";
for a well-formed state it is the 8-byte prefix of the raw value. -/
def storedVersion (m : Mem) (key : Bytes) : Option Nat :=
  (memGet m key).map readBe64

/-! ### BlobStoreWrapper (src/pkg/storage/bitcask.go, lines 69-79)

`Put` hashes the value (Blake2b-512 in the source, an external library call
abstracted here as a parameter `H`), writes `raw.put(H(value), value)` and
returns the key — Go named return values return the key even when the
delegate errs.  `Get` delegates. -/
/-- Abstract raw key-value store over a state type, as used as the blob
store's delegate (`Store` interface of pkg/storage). -/

structure RawStore (σ : Type) where
  put : σ → Bytes → Bytes → σ × Option StoreErr
  get : σ → Bytes → Except StoreErr Bytes

/-- The raw store honours the put/get contract: puts succeed and a get of a
just-put key returns the value. -/
def RawContract {σ : Type} (r : RawStore σ) : Prop :=
  ∀ st k val, (r.put st k val).2 = none ∧ (r.get (r.put st k val).1 k = .ok val)

/-- Embeds `BlobStoreWrapper.Put`; `H` stands for `blake2b.Sum512`. -/
def blobPut {σ : Type} (H : Bytes → Bytes) (r : RawStore σ) (s : σ)
    (value : Bytes) : Bytes × σ × Option StoreErr :=
  let key := H value
  let (s2, err) := r.put s key value
  (key, s2, err)

/-- Embeds `BlobStoreWrapper.Get`: pure delegation. -/
def blobGet {σ : Type} (r : RawStore σ) (s : σ) (key : Bytes) :
    Except StoreErr Bytes :=
  r.get s key

/-- The repository's own in-memory raw store, packaged as a `RawStore`. -/
def memRawStore : RawStore Mem :=
  ⟨fun s k v => (inMemoryPut s k v, none), fun s k => inMemoryGet s k⟩

/-! ### Paired store (src/unnamed/part_010)

`Paired.Get` consults the fast store; the code then returns on `err != nil`
— which includes `ErrNotFound` — before the `errors.Is(err, ErrNotFound)`
test, so the slow-store branch below it can never run.  The effect trace
records which stores were consulted. -/
/-- Which underlying operations a `Paired.Get` call performed. -/

inductive PairEff where
  | fastGet
  | slowGet
  | fastPut
  deriving DecidableEq, Repr

/-- Embeds `errors.Is(err, ErrNotFound)`; false on a nil error. -/
def errIsNotFound : Option StoreErr → Bool
  | some .notFound => true
  | _ => false

/-- Embeds `Paired.Get` over in-memory fast and slow stores, returning the
Go `(value, err)` pair plus the trace of store operations performed. -/
def pairedGet (fast slow : Mem) (key : Bytes) :
    (Option Bytes × Option StoreErr) × List PairEff :=
  let value : Option Bytes :=
    match inMemoryGet fast key with | .ok v => some v | .error _ => none
  let err : Option StoreErr :=
    match inMemoryGet fast key with | .ok _ => none | .error e => some e
  if err ≠ none then ((value, err), [.fastGet])
  else if ¬ (errIsNotFound err = true) then ((value, err), [.fastGet])
  else
    match inMemoryGet slow key with
    | .error e => ((none, some e), [.fastGet, .slowGet])
    | .ok v => ((some v, none), [.fastGet, .slowGet, .fastPut])

/-! ### DiskStore.Put (src/unnamed/part_007, lines 20-34)

The error handling is inverted: a failed `os.WriteFile` returns `nil`, a
successful one falls through to `if !os.IsNotExist(err)` with `err == nil`
(`os.IsNotExist(nil)` is false), which returns the "could not write" error.
The mkdir-and-retry tail is unreachable.  File-system outcomes are oracles
in `DiskEnv`; the effect trace records the system calls made. -/
/-- An `os` error, carrying only what `os.IsNotExist` inspects. -/

structure OsErr where
  notExistFlag : Bool
  deriving DecidableEq, Repr

/-- Embeds `os.IsNotExist`: false on a nil error. -/
def osIsNotExist : Option OsErr → Bool
  | none => false
  | some e => e.notExistFlag

/-- Oracle outcomes for the file-system calls `DiskStore.Put` can make. -/
structure DiskEnv where
  write1 : Option OsErr
  mkdir : Option OsErr
  write2 : Option OsErr

/-- System calls `DiskStore.Put` can issue. -/
inductive DiskEff where
  | writeFile
  | mkdirAll
  deriving DecidableEq, Repr

/-- Errors `DiskStore.Put` can report. -/
inductive DiskErr where
  | couldNotWrite
  | couldNotMkdir
  | writeErr (e : OsErr)
  deriving DecidableEq, Repr

/-- Embeds `DiskStore.Put`: result error (`none` = Go `nil`) and the trace of
file-system calls. -/
def diskPut (env : DiskEnv) : Option DiskErr × List DiskEff :=
  match env.write1 with
  | some _ => (none, [.writeFile])
  | none =>
    let err : Option OsErr := none
    if ¬ (osIsNotExist err = true) then (some .couldNotWrite, [.writeFile])
    else
      match env.mkdir with
      | some _ => (some .couldNotMkdir, [.writeFile, .mkdirAll])
      | none =>
        match env.write2 with
        | some e => (some (.writeErr e), [.writeFile, .mkdirAll, .writeFile])
        | none => (none, [.writeFile, .mkdirAll, .writeFile])

/-! ### Server.Listen (src/unnamed/part_005, lines 90-110)

With a TLS key pair configured (`opts.tls`), `Listen` loads the pair and
binds a TLS listener; otherwise it first rejects a non-empty auth hash with
`ErrPasswordWithoutTLS` and only then binds a plain TCP listener. -/
/-- Oracle outcomes for the external calls `Listen` makes. -/

structure ListenEnv where
  loadKeyPair : Option Unit
  tlsListen : Except Unit String
  tcpListen : Except Unit String

/-- The server options `Listen` reads (`options` struct of the server). -/
structure SrvOptions where
  tls : Bool
  authHash : String

/-- Bind attempts `Listen` can make. -/
inductive ListenEff where
  | tlsBind
  | tcpBind
  deriving DecidableEq, Repr

/-- Errors `Listen` can return. -/
inductive ListenErr where
  | passwordWithoutTLS
  | keyPairErr
  | bindErr
  deriving DecidableEq, Repr

/-- Embeds `Server.Listen`: the returned address or error, plus the trace of
listener binds attempted. -/
def listen (env : ListenEnv) (o : SrvOptions) :
    Except ListenErr String × List ListenEff :=
  if o.tls then
    match env.loadKeyPair with
    | some _ => (.error .keyPairErr, [])
    | none =>
      match env.tlsListen with
      | .error _ => (.error .bindErr, [.tlsBind])
      | .ok addr => (.ok addr, [.tlsBind])
  else
    if o.authHash ≠ "" then (.error .passwordWithoutTLS, [])
    else
      match env.tcpListen with
      | .error _ => (.error .bindErr, [.tcpBind])
      | .ok addr => (.ok addr, [.tcpBind])

/-! ### Node factory registry (src/pkg/node/nodefcatory.go)

Go heap pointers are modelled as an arena: `Factory.heap` is the list of all
allocated `CryptNode` values and a `*CryptNode` is an index into it.
`ExistingNode` always allocates a fresh node and passes it to `addKnown`,
which registers it only when the key is not already known — but
`ExistingNode` returns the fresh node either way. -/
/-- The `CryptNode` fields that `ExistingNode` populates. -/

structure NodeRec where
  name : String
  key : Bytes
  mode : Nat
  deriving DecidableEq, Repr

instance : Inhabited NodeRec := ⟨⟨"", [], 0⟩⟩

/-- Embeds the `modeNotLoaded` sentinel (`0xffffffff`). -/
def modeNotLoaded : Nat := 0xffffffff

/-- The factory's registry and arena. -/
structure Factory where
  heap : List NodeRec
  known : List (Bytes × Nat)
  deriving DecidableEq, Repr

/-- Lookup in the `known` registry (`factory.known[node.Key]`). -/
def knownLookup : List (Bytes × Nat) → Bytes → Option Nat
  | [], _ => none
  | (k, p) :: rest, key => if k = key then some p else knownLookup rest key

/-- Embeds `addKnown`: registers the node at `ptr` unless its key is already
known (then the registry is left untouched). -/
def addKnown (f : Factory) (ptr : Nat) : Factory :=
  let key := (f.heap.getD ptr default).key
  match knownLookup f.known key with
  | some _ => f
  | none => ⟨f.heap, (key, ptr) :: f.known⟩

/-- Embeds `ExistingNode`: allocate a fresh node with the given name and key
and mode `modeNotLoaded`, call `addKnown`, and return the fresh node. -/
def existingNode (f : Factory) (name : String) (key : Bytes) : Factory × Nat :=
  let node : NodeRec := ⟨name, key, modeNotLoaded⟩
  let ptr := f.heap.length
  let f1 : Factory := ⟨f.heap ++ [node], f.known⟩
  (addKnown f1 ptr, ptr)

/-- Registry pointers are valid arena indices. -/
def FactoryWF (f : Factory) : Prop :=
  ∀ p ∈ f.known, (p.2 : Nat) < f.heap.length

instance (f : Factory) : Decidable (FactoryWF f) := by
  unfold FactoryWF
  infer_instance

/-! ### Node engine: dirty flags and `sync` (src/unnamed/part_006, and the
node operations in src/pkg/node)

`sync` runs under the node's lock; the store outcomes are oracles in
`SyncEnv` (`blobPutR` is the Go pair returned by `factory.Blobs.Put`,
`metaPutR` the error of `factory.Metadata.Put`, `serializeR` stands for
`node.serialize()`, whose bytes are irrelevant to these claims). -/
/-- Kernel-facing errno values used by the embedded operations. -/

inductive Errno where
  | ok
  | eio
  | eexist
  | enodata
  deriving DecidableEq, Repr

/-- Versioned-store put outcomes as seen by `saveMetadata`. -/
inductive MetaErr where
  | stale
  | other
  deriving DecidableEq, Repr

/-- The `CryptNode` fields touched by `sync` and `Setxattr`. -/
structure NodeSt where
  shouldSaveMetadata : Bool
  shouldReloadMetadata : Bool
  shouldSaveContent : Bool
  key : Bytes
  version : Nat
  contentKey : Bytes
  content : Bytes
  xattrs : List (String × Bytes)
  deriving DecidableEq, Repr

/-- Store oracles for one `sync` call. -/
structure SyncEnv where
  blobPutR : Bytes → Bytes × Option Unit
  serializeR : NodeSt → Bytes
  metaPutR : Nat → Bytes → Bytes → Option MetaErr

/-- Embeds `CryptNode.saveMetadata`: versioned-put the serialized node at
`version + 1`; on success bump the version. -/
def saveMetadata (env : SyncEnv) (s : NodeSt) : NodeSt × Option MetaErr :=
  let value := env.serializeR s
  match env.metaPutR (s.version + 1) s.key value with
  | some e => (s, some e)
  | none => ({ s with version := s.version + 1 }, none)

/-- The metadata half of `CryptNode.sync` (the code after the
`shouldSaveContent` block). -/
def syncMeta (env : SyncEnv) (s : NodeSt) : NodeSt × Errno :=
  if s.shouldSaveMetadata then
    match saveMetadata env s with
    | (s1, some e) =>
      let s2 := if e = .stale then { s1 with shouldReloadMetadata := true } else s1
      (s2, .eio)
    | (s1, none) => ({ s1 with shouldSaveMetadata := false }, .ok)
  else (s, .ok)

/-- Embeds `CryptNode.sync`.  Note the Go multiple assignment
`node.contentKey, err = node.factory.Blobs.Put(node.content)` overwrites
`contentKey` with the returned key even when `err != nil`. -/
def sync (env : SyncEnv) (s : NodeSt) : NodeSt × Errno :=
  if s.shouldSaveContent then
    let prev := s.contentKey
    let pr := env.blobPutR s.content
    let s1 := { s with contentKey := pr.1 }
    match pr.2 with
    | some _ => (s1, .eio)
    | none =>
      let s2 := { s1 with shouldSaveContent := false }
      let s3 :=
        if ¬ (prev = s2.contentKey) then { s2 with shouldSaveMetadata := true }
        else s2
      syncMeta env s3
  else syncMeta env s

/-! ### Setxattr (src/pkg/node, the node-operations file, lines 123-174)

The Go `switch flags` with early returns is two guard tests; the lazy
`node.xattrs` map initialization is unobservable at the mapping level.
Xattrs are an association list with shadowing insert (Go map assignment)
and full delete. -/
/-- Lookup in the xattrs map. -/

def xlookup : List (String × Bytes) → String → Option Bytes
  | [], _ => none
  | (a, v) :: rest, attr => if a = attr then some v else xlookup rest attr

/-- Go map assignment on xattrs. -/
def xinsert (attr : String) (v : Bytes) (m : List (String × Bytes)) :
    List (String × Bytes) :=
  (attr, v) :: m

/-- Go `delete` on xattrs (removes every binding of the key, since
`xinsert` shadows). -/
def xdelete (attr : String) : List (String × Bytes) → List (String × Bytes)
  | [] => []
  | p :: rest => if p.1 = attr then xdelete attr rest else p :: xdelete attr rest

/-- Embeds `unix.XATTR_CREATE`. -/
def xattrCreate : Nat := 1

/-- Embeds `unix.XATTR_REPLACE`. -/
def xattrReplace : Nat := 2

/-- Embeds `CryptNode.Setxattr`: flag checks, insert, `sync`, and rollback
(`rbdata != nil` distinguishes replace from create; stored xattr values are
never Go-nil, so `none` here means exactly "was absent"). -/
def setxattr (env : SyncEnv) (s : NodeSt) (attr : String) (data : Bytes)
    (flags : Nat) : NodeSt × Errno :=
  if flags = xattrCreate ∧ (xlookup s.xattrs attr).isSome then (s, .eexist)
  else if flags = xattrReplace ∧ xlookup s.xattrs attr = none then (s, .enodata)
  else
    let rbdata := xlookup s.xattrs attr
    let s1 := { s with xattrs := xinsert attr data s.xattrs,
                       shouldSaveMetadata := true }
    let r := sync env s1
    if r.2 ≠ .ok then
      match rbdata with
      | some v => ({ r.1 with xattrs := xinsert attr v r.1.xattrs }, r.2)
      | none => ({ r.1 with xattrs := xdelete attr r.1.xattrs }, r.2)
    else r

/-! ### Message and wire codec (src/unnamed/part_004 and part_002)

A `Message` carries a kind code (`Kind` is a `uint8`; the four valid codes
are 0..3), a tag, key, value and version; the key and value are Go strings,
i.e. byte strings.

The primitive serialization helpers live in `pkg/bits`, which is not among
the provided sources; they are modelled from the spec ("Fixed-width and
length-prefixed primitive serialization helpers", "big-endian integers,
length-prefixed strings (u16 length + bytes)").  A helper that would index
past its slice is modelled as a Go panic where the decoder is concerned. -/
/-- Embeds the Go `Message` struct (key/value are byte strings, kind is the
raw `uint8` code). -/

structure Message where
  kind : Nat
  tag : Nat
  key : Bytes
  value : Bytes
  version : Nat
  deriving DecidableEq, Repr

/-- Embeds `KindGet`. -/
def kindGet : Nat := 0

/-- Embeds `KindPut`. -/
def kindPut : Nat := 1

/-- Embeds `KindError`. -/
def kindError : Nat := 2

/-- Embeds `KindAuth`. -/
def kindAuth : Nat := 3

/-- Embeds `kindCount`. -/
def kindCount : Nat := 4

/-- The zero `Message` (`var out Message` at a decode call site). -/
def mzero : Message := ⟨0, 0, [], [], 0⟩

/-- Modelled from the spec: `bits.Put16` writes a `uint16` big-endian
(2 bytes); the `% 256` per byte realizes the `uint16(·)` truncation. -/
def put16Bytes (v : Nat) : Bytes :=
  [v / 256 % 256, v % 256]

/-- Encoder buffer state (`Encoder.buf` and `Encoder.off`). -/
structure EncSt where
  buf : Bytes
  off : Nat
  deriving DecidableEq, Repr

/-- Embeds `Encoder.makeroom`: grow the buffer to exactly `required` bytes
when it is smaller (Go `make` zero-fills the extension). -/
def makeroom (required : Nat) (s : EncSt) : EncSt :=
  if required ≤ s.buf.length then s
  else ⟨s.buf ++ List.replicate (required - s.buf.length) 0, s.off⟩

/-- Writing `piece` into a buffer at offset `i` (the callers `makeroom`
enough capacity first, as the Go `bits.PutN` helpers assume). -/
def writeAt (buf : Bytes) (i : Nat) (piece : Bytes) : Bytes :=
  buf.take i ++ piece ++ buf.drop (i + piece.length)

/-- Embeds `Encoder.put8` (via the spec-modelled `bits.Put8`). -/
def encPut8 (v : Nat) (s : EncSt) : EncSt :=
  ⟨writeAt s.buf s.off [v % 256], s.off + 1⟩

/-- Embeds `Encoder.put16` (via the spec-modelled `bits.Put16`). -/
def encPut16 (v : Nat) (s : EncSt) : EncSt :=
  ⟨writeAt s.buf s.off (put16Bytes v), s.off + 2⟩

/-- Embeds `Encoder.put64` (via the spec-modelled `bits.Put64`, big-endian,
which is the same byte layout as `be64`). -/
def encPut64 (v : Nat) (s : EncSt) : EncSt :=
  ⟨writeAt s.buf s.off (be64 v), s.off + 8⟩

/-- Embeds `Encoder.puts` (via the spec-modelled `bits.Puts`: `uint16`
length prefix, then the bytes). -/
def encPuts (str : Bytes) (s : EncSt) : EncSt :=
  ⟨writeAt s.buf s.off (put16Bytes str.length ++ str), s.off + 2 + str.length⟩

/-- Embeds `Encoder.Encode` for a fresh encoder (buffer reuse across calls
only affects capacity, never the produced bytes): the bytes written to the
writer are `e.buf[:e.off]`; an unknown kind yields `ErrBadMessage` (`none`).
The writer itself is assumed to accept the bytes (its errors are outside
this claim). -/
def encode (m : Message) : Option Bytes :=
  let s0 : EncSt := ⟨[], 0⟩
  let s1 := makeroom 3 s0
  let s2 := encPut8 m.kind s1
  let s3 := encPut16 m.tag s2
  if m.kind = kindGet then
    let s4 := makeroom (s3.off + 2 + m.key.length) s3
    let s5 := encPuts m.key s4
    some (s5.buf.take s5.off)
  else if m.kind = kindPut then
    let s4 := makeroom (s3.off + 12 + m.key.length + m.value.length) s3
    let s5 := encPuts m.key s4
    let s6 := encPuts m.value s5
    let s7 := encPut64 m.version s6
    some (s7.buf.take s7.off)
  else if m.kind = kindAuth ∨ m.kind = kindError then
    let s4 := makeroom (s3.off + 2 + m.value.length) s3
    let s5 := encPuts m.value s4
    some (s5.buf.take s5.off)
  else none

/-- Decoder errors (`d.err`): a short read surfaces as underflow. -/
inductive DecErr where
  | underflow
  deriving DecidableEq, Repr

/-- Decoder state: the unread reader bytes, `d.buf`, `d.off`, `d.err`. -/
structure DecSt where
  stream : Bytes
  buf : Bytes
  off : Nat
  err : Option DecErr
  deriving DecidableEq, Repr

/-- Embeds `Decoder.read`: grow `buf` to `off + n` if needed, then (unless a
sticky error is set) reset `off` and `io.ReadFull` the first `n` buffer
bytes from the reader; a short reader leaves the bytes read and sets the
error. -/
def decRead (n : Nat) (s : DecSt) : DecSt :=
  let buf :=
    if s.buf.length - s.off < n then
      s.buf ++ List.replicate (s.off + n - s.buf.length) 0
    else s.buf
  if s.err ≠ none then ⟨s.stream, buf, s.off, s.err⟩
  else
    if n ≤ s.stream.length then
      ⟨s.stream.drop n, s.stream.take n ++ buf.drop n, 0, none⟩
    else
      ⟨[], s.stream ++ buf.drop s.stream.length, 0, some .underflow⟩

/-- Embeds `Decoder.get8` (spec-modelled `bits.Get8` on `d.buf[d.off:]`);
`none` is the Go panic on an out-of-range read. -/
def decGet8 (s : DecSt) : Option (Nat × DecSt) :=
  if s.off + 1 ≤ s.buf.length then
    some (s.buf.getD s.off 0, ⟨s.stream, s.buf, s.off + 1, s.err⟩)
  else none

/-- Embeds `Decoder.get16` (spec-modelled big-endian `bits.Get16`). -/
def decGet16 (s : DecSt) : Option (Nat × DecSt) :=
  if s.off + 2 ≤ s.buf.length then
    some (s.buf.getD s.off 0 * 256 + s.buf.getD (s.off + 1) 0,
      ⟨s.stream, s.buf, s.off + 2, s.err⟩)
  else none

/-- Embeds `Decoder.get64` (spec-modelled big-endian `bits.Get64`). -/
def decGet64 (s : DecSt) : Option (Nat × DecSt) :=
  if s.off + 8 ≤ s.buf.length then
    some (readBe64 (s.buf.drop s.off), ⟨s.stream, s.buf, s.off + 8, s.err⟩)
  else none

/-- Embeds `Decoder.gets`: slice `d.buf[d.off : d.off+n]` (Go panics when
that overruns the buffer). -/
def decGets (n : Nat) (s : DecSt) : Option (Bytes × DecSt) :=
  if s.off + n ≤ s.buf.length then
    some ((s.buf.drop s.off).take n, ⟨s.stream, s.buf, s.off + n, s.err⟩)
  else none

/-- A finished decode: `Decode` returns `d.err`; `panicked` is a Go runtime
panic inside one of the getters. -/
inductive DecOut where
  | ok (m : Message)
  | errored (e : DecErr) (m : Message)
  | panicked
  deriving DecidableEq, Repr

/-- Return of `Decoder.Decode` (the message fields assigned so far are kept
even on error, as with the Go out-parameter). -/
def decFinish (m : Message) (s : DecSt) : DecOut :=
  match s.err with
  | none => .ok m
  | some e => .errored e m

/-- Embeds `Decoder.Decode` for the message given as the out-parameter:
reads 5 header bytes (kind, tag, and the first field length), then the
kind-specific body.  The `(n + 2) % 65536` and `(n + 8) % 65536` realize
the Go `uint16` additions `n+2` and `n+8` in `d.read(r, n+2)` and
`d.read(r, n+8)`, which wrap for large `n`. -/
def decode (stream : Bytes) (m0 : Message) : DecOut :=
  let s1 := decRead 5 ⟨stream, [], 0, none⟩
  match decGet8 s1 with
  | none => .panicked
  | some (kindv, s2) =>
    match decGet16 s2 with
    | none => .panicked
    | some (tagv, s3) =>
      let m1 : Message := { m0 with kind := kindv, tag := tagv }
      if kindv = kindGet then
        match decGet16 s3 with
        | none => .panicked
        | some (n, s4) =>
          let s5 := decRead n s4
          match decGets n s5 with
          | none => .panicked
          | some (keyv, s6) => decFinish { m1 with key := keyv } s6
      else if kindv = kindPut then
        match decGet16 s3 with
        | none => .panicked
        | some (n, s4) =>
          let s5 := decRead ((n + 2) % 65536) s4
          match decGets n s5 with
          | none => .panicked
          | some (keyv, s6) =>
            match decGet16 s6 with
            | none => .panicked
            | some (n2, s7) =>
              let s8 := decRead ((n2 + 8) % 65536) s7
              match decGets n2 s8 with
              | none => .panicked
              | some (valv, s9) =>
                match decGet64 s9 with
                | none => .panicked
                | some (verv, s10) =>
                  decFinish
                    { m1 with key := keyv, value := valv, version := verv } s10
      else if kindv = kindAuth ∨ kindv = kindError then
        match decGet16 s3 with
        | none => .panicked
        | some (n, s4) =>
          let s5 := decRead n s4
          match decGets n s5 with
          | none => .panicked
          | some (valv, s6) => decFinish { m1 with value := valv } s6
      else decFinish m1 s3

/-! ### Kind.STring and ApplyMessage (src/unnamed/part_004 lines 52-67,
src/unnamed/part_009)

The `Kind` Stringer is misspelled `STring`, so it does not implement
`fmt.Stringer`; `fmt.Sprintf("%s", kind)` therefore falls back to the
bad-verb notice `%!s(message.Kind=N)`. -/
/-- Embeds the (misspelled, hence never used by `fmt`) `Kind.STring`. -/

def kindSTring (k : Nat) : String :=
  if k = kindGet then "GET"
  else if k = kindPut then "PUT"
  else if k = kindCount then "Count"
  else if k = kindAuth then "AUTH"
  else if k = kindError then "ERROR"
  else "UNKNOWN"

/-- What Go `fmt` prints for `%s` applied to a `message.Kind` value, which
has no `String() string` method: the bad-verb notice. -/
def goFmtS (k : Nat) : String :=
  "%!s(message.Kind=" ++ toString k ++ ")"

/-- Go string to bytes (the strings involved are ASCII, where Go's UTF-8
bytes and the code points coincide). -/
def strToBytes (s : String) : Bytes :=
  s.data.map (fun c => c.toNat)

/-- The `err.Error()` renderings `ApplyMessage` may embed in ERROR replies;
their exact text comes from Go error formatting outside these claims. -/
structure ErrTexts where
  notFoundText : String
  staleText : String

/-- Embeds `ApplyMessage` over the versioned wrapper on the in-memory store:
GET fetches and replies PUT or ERROR; PUT attempts the versioned put and
replies with the same message or ERROR; AUTH/ERROR get the
cannot-be-applied ERROR (with the `%!s` text produced by the misspelled
Stringer); unknown kinds get "unknown message kind".  `none` is a Go panic
escaping from the store. -/
def applyMessage (mem : Mem) (errT : ErrTexts) (inp : Message) :
    Option (Message × Mem) :=
  let inTag := inp.tag
  if inp.kind = kindGet then
    match versionedGet mem inp.key with
    | .panicked => none
    | .notFound => some (⟨kindError, inTag, [], strToBytes errT.notFoundText, 0⟩, mem)
    | .ok version value => some (⟨kindPut, inTag, inp.key, value, version⟩, mem)
  else if inp.kind = kindPut then
    match versionedPut mem inp.version inp.key inp.value with
    | .panicked => none
    | .stale => some (⟨kindError, inTag, [], strToBytes errT.staleText, 0⟩, mem)
    | .ok mem2 => some (inp, mem2)
  else if inp.kind = kindAuth ∨ inp.kind = kindError then
    some (⟨kindError, inTag, [],
      strToBytes ("messages of kind " ++ goFmtS inp.kind ++ " cannot be applied"),
      0⟩, mem)
  else
    some (⟨kindError, inTag, [], strToBytes "unknown message kind", 0⟩, mem)

theorem memGet_memPut_same (m : Mem) (k v : Bytes) :
    memGet (memPut k v m) k = some v := by
  simp [memGet, memPut]

theorem memGet_mem {m : Mem} {k v : Bytes} (h : memGet m k = some v) :
    (k, v) ∈ m := by
  induction m with
  | nil => simp [memGet] at h
  | cons p rest ih =>
    rw [memGet] at h
    by_cases hk : p.1 = k
    · simp [hk] at h
      cases p
      simp_all
    · simp [hk] at h
      right
      exact ih h

theorem readBe64_be64_append (v : Nat) (rest : Bytes) (h : v < 2 ^ 64) :
    readBe64 (be64 v ++ rest) = v := by
  simp [be64, readBe64, List.getD]
  omega

theorem versionedPut_notFound (m : Mem) (version : Nat) (key value : Bytes)
    (h : memGet m key = none) :
    versionedPut m version key value = .ok (memPut key (be64 version ++ value) m) := by
  simp [versionedPut, h]

theorem versionedPut_present (m : Mem) (version : Nat) (key value curr : Bytes)
    (h : memGet m key = some curr) (hwf : VersionedWF m) (hv : version < 2 ^ 64) :
    versionedPut m version key value =
      if version < (readBe64 curr + 1) % 2 ^ 64 then .stale
      else .ok (memPut key (be64 version ++ value) m) := by
  have hlen : 8 ≤ curr.length := hwf (key, curr) (memGet_mem h)
  simp only [versionedPut, h]
  rw [if_neg (by omega), Nat.mod_eq_of_lt hv]

theorem memRawStore_contract : RawContract memRawStore := by
  intro st k val
  constructor
  · rfl
  · simp [memRawStore, inMemoryGet, inMemoryPut, memGet_memPut_same]

theorem saveMetadata_xattrs (env : SyncEnv) (s : NodeSt) :
    (saveMetadata env s).1.xattrs = s.xattrs := by
  simp only [saveMetadata]
  split <;> rfl

theorem syncMeta_xattrs (env : SyncEnv) (s : NodeSt) :
    (syncMeta env s).1.xattrs = s.xattrs := by
  have hx := saveMetadata_xattrs env s
  simp only [syncMeta]
  split
  · split
    · next s1 e heq =>
        rw [heq] at hx
        simp only at hx
        split <;> simpa using hx
    · next s1 heq =>
        rw [heq] at hx
        simpa using hx
  · rfl

theorem sync_xattrs (env : SyncEnv) (s : NodeSt) :
    (sync env s).1.xattrs = s.xattrs := by
  simp only [sync]
  split
  · split
    · simp
    · split <;> simp [syncMeta_xattrs]
  · exact syncMeta_xattrs env s

theorem getD_append_length (l : List NodeRec) (x : NodeRec) :
    (l ++ [x]).getD l.length default = x := by
  induction l with
  | nil => rfl
  | cons a rest ih =>
      rw [List.cons_append, List.length_cons, List.getD_cons_succ]
      exact ih

theorem knownLookup_mem {kn : List (Bytes × Nat)} {key : Bytes} {p : Nat}
    (h : knownLookup kn key = some p) : (key, p) ∈ kn := by
  induction kn with
  | nil => simp [knownLookup] at h
  | cons q rest ih =>
    rw [knownLookup] at h
    by_cases hk : q.1 = key
    · simp [hk] at h
      cases q
      simp_all
    · simp [hk] at h
      right
      exact ih h

theorem xlookup_xinsert_same (a : String) (v : Bytes)
    (m : List (String × Bytes)) : xlookup (xinsert a v m) a = some v := by
  simp [xinsert, xlookup]

theorem xlookup_xinsert_ne (a x : String) (v : Bytes)
    (m : List (String × Bytes)) (h : a ≠ x) :
    xlookup (xinsert a v m) x = xlookup m x := by
  simp [xinsert, xlookup, h]

theorem xlookup_xdelete_same (a : String) (m : List (String × Bytes)) :
    xlookup (xdelete a m) a = none := by
  induction m with
  | nil => rfl
  | cons p rest ih =>
    rw [xdelete]
    by_cases hp : p.1 = a
    · simpa [hp] using ih
    · simpa [xlookup, hp] using ih

theorem xlookup_xdelete_ne (a x : String) (m : List (String × Bytes))
    (h : a ≠ x) : xlookup (xdelete a m) x = xlookup m x := by
  induction m with
  | nil => rfl
  | cons p rest ih =>
    rw [xdelete]
    by_cases hp : p.1 = a
    · have hpx : ¬ p.1 = x := by
        rw [hp]
        exact h
      simpa [xlookup, hp, hpx, h] using ih
    · by_cases hx : p.1 = x
      · simp [xlookup, hp, hx, Ne.symm h]
      · simpa [xlookup, hp, hx, h] using ih

theorem writeAt_exact (p rest piece : Bytes) :
    writeAt (p ++ rest) p.length piece = p ++ (piece ++ rest.drop piece.length) := by
  unfold writeAt
  rw [List.take_left, List.drop_append, List.append_assoc]

theorem length_put16 (v : Nat) : (put16Bytes v).length = 2 := rfl

theorem length_be64 (v : Nat) : (be64 v).length = 8 := rfl

theorem makeroom_inv (r : Nat) (p rest : Bytes) :
    makeroom r ⟨p ++ rest, p.length⟩ =
      ⟨p ++ (rest ++ List.replicate (r - (p.length + rest.length)) 0), p.length⟩ := by
  unfold makeroom
  split
  · next h =>
      rw [List.length_append] at h
      rw [show r - (p.length + rest.length) = 0 from by omega]
      simp
  · next h =>
      rw [List.length_append] at h
      simp [List.append_assoc]

theorem encPut8_inv (v : Nat) (p rest : Bytes) :
    encPut8 v ⟨p ++ rest, p.length⟩ =
      ⟨(p ++ [v % 256]) ++ rest.drop 1, (p ++ [v % 256]).length⟩ := by
  simp only [encPut8, writeAt_exact, List.length_append, List.length_cons,
    List.length_nil, List.append_assoc]

theorem encPut16_inv (v : Nat) (p rest : Bytes) :
    encPut16 v ⟨p ++ rest, p.length⟩ =
      ⟨(p ++ put16Bytes v) ++ rest.drop 2, (p ++ put16Bytes v).length⟩ := by
  simp only [encPut16, writeAt_exact, List.length_append, length_put16,
    List.append_assoc]

theorem encPut64_inv (v : Nat) (p rest : Bytes) :
    encPut64 v ⟨p ++ rest, p.length⟩ =
      ⟨(p ++ be64 v) ++ rest.drop 8, (p ++ be64 v).length⟩ := by
  simp only [encPut64, writeAt_exact, List.length_append, length_be64,
    List.append_assoc]

theorem encPuts_inv (str : Bytes) (p rest : Bytes) :
    encPuts str ⟨p ++ rest, p.length⟩ =
      ⟨(p ++ (put16Bytes str.length ++ str)) ++ rest.drop (2 + str.length),
        (p ++ (put16Bytes str.length ++ str)).length⟩ := by
  simp only [encPuts, writeAt_exact, List.length_append, length_put16,
    List.append_assoc, Nat.add_assoc]

theorem encSt_start : (⟨[], 0⟩ : EncSt) = ⟨([] : Bytes) ++ ([] : Bytes), ([] : Bytes).length⟩ := rfl

theorem encode_get_eq (m : Message) (h : m.kind = kindGet) :
    encode m = some (m.kind % 256 :: (put16Bytes m.tag ++ (put16Bytes m.key.length ++ m.key))) := by
  simp only [encode]
  rw [if_pos h, encSt_start, makeroom_inv, encPut8_inv, encPut16_inv]
  try dsimp only
  rw [makeroom_inv, encPuts_inv]
  try dsimp only
  rw [List.take_left]
  simp [List.append_assoc]

theorem encode_authError_eq (m : Message) (h : m.kind = kindAuth ∨ m.kind = kindError) :
    encode m = some (m.kind % 256 :: (put16Bytes m.tag ++ (put16Bytes m.value.length ++ m.value))) := by
  have hk1 : ¬ (m.kind = kindGet) := by
    rcases h with h | h <;> simp [h, kindAuth, kindError, kindGet]
  have hk2 : ¬ (m.kind = kindPut) := by
    rcases h with h | h <;> simp [h, kindAuth, kindError, kindPut]
  simp only [encode]
  rw [if_neg hk1, if_neg hk2, if_pos h, encSt_start, makeroom_inv, encPut8_inv,
    encPut16_inv]
  try dsimp only
  rw [makeroom_inv, encPuts_inv]
  try dsimp only
  rw [List.take_left]
  simp [List.append_assoc]

theorem encode_put_eq (m : Message) (h : m.kind = kindPut) :
    encode m = some (m.kind % 256 :: (put16Bytes m.tag ++ (put16Bytes m.key.length ++ (m.key ++ (put16Bytes m.value.length ++ (m.value ++ be64 m.version)))))) := by
  have hk1 : ¬ (m.kind = kindGet) := by simp [h, kindPut, kindGet]
  simp only [encode]
  rw [if_neg hk1, if_pos h, encSt_start, makeroom_inv, encPut8_inv, encPut16_inv]
  try dsimp only
  rw [makeroom_inv, encPuts_inv]
  try dsimp only
  rw [encPuts_inv, encPut64_inv]
  try dsimp only
  rw [List.take_left]
  simp [List.append_assoc]

theorem getD_append_right_zero (a b : Bytes) (d : Nat) :
    (a ++ b).getD a.length d = b.getD 0 d := by
  induction a with
  | nil => rfl
  | cons x rest ih =>
      rw [List.cons_append, List.length_cons, List.getD_cons_succ]
      exact ih

theorem getD_append_right_one (a b : Bytes) (d : Nat) :
    (a ++ b).getD (a.length + 1) d = b.getD 1 d := by
  induction a with
  | nil => rfl
  | cons x rest ih =>
      rw [List.cons_append, List.length_cons, List.getD_cons_succ]
      exact ih

theorem decRead5_start (b0 b1 b2 b3 b4 : Nat) (rest : Bytes) :
    decRead 5 ⟨b0 :: b1 :: b2 :: b3 :: b4 :: rest, [], 0, none⟩ =
      ⟨rest, [b0, b1, b2, b3, b4], 0, none⟩ := by
  unfold decRead
  dsimp only
  rw [if_neg (by simp)]
  rw [if_pos (show 5 ≤ (b0 :: b1 :: b2 :: b3 :: b4 :: rest).length by
    simp [List.length_cons])]
  rfl

theorem decRead_refill (n off : Nat) (stream pre rest2 buf : Bytes)
    (hs : stream = pre ++ rest2) (hn : pre.length = n) :
    ∃ junk : Bytes, decRead n ⟨stream, buf, off, none⟩ =
      ⟨rest2, pre ++ junk, 0, none⟩ := by
  subst hs
  subst hn
  refine ⟨(if buf.length - off < pre.length then
    buf ++ List.replicate (off + pre.length - buf.length) 0 else buf).drop
      pre.length, ?_⟩
  unfold decRead
  dsimp only
  rw [if_neg (by simp)]
  rw [if_pos (show pre.length ≤ (pre ++ rest2).length by
    simp [List.length_append])]
  rw [List.take_left, List.drop_left]

theorem decGets_at0 (n : Nat) (srest buf pre junk : Bytes) (e : Option DecErr)
    (hb : buf = pre ++ junk) (hn : pre.length = n) :
    decGets n ⟨srest, buf, 0, e⟩ = some (pre, ⟨srest, buf, n, e⟩) := by
  subst hb
  subst hn
  unfold decGets
  dsimp only
  rw [if_pos (show 0 + pre.length ≤ (pre ++ junk).length by
    simp [List.length_append])]
  rw [List.drop_zero, List.take_left]
  simp

theorem decGets_none (n : Nat) (s : DecSt) (h : ¬ (s.off + n ≤ s.buf.length)) :
    decGets n s = none := by
  unfold decGets
  rw [if_neg h]

theorem decGet16_mid (srest buf pre junk : Bytes) (x y : Nat) (e : Option DecErr)
    (hb : buf = pre ++ (x :: y :: junk)) :
    decGet16 ⟨srest, buf, pre.length, e⟩ =
      some (x * 256 + y, ⟨srest, buf, pre.length + 2, e⟩) := by
  subst hb
  unfold decGet16
  dsimp only
  rw [if_pos (show pre.length + 2 ≤ (pre ++ (x :: y :: junk)).length by
    simp [List.length_append])]
  rw [getD_append_right_zero, getD_append_right_one]
  rfl

theorem decGet64_mid (srest buf pre e8 junk : Bytes) (e : Option DecErr)
    (hb : buf = pre ++ (e8 ++ junk)) (h8 : e8.length = 8) :
    decGet64 ⟨srest, buf, pre.length, e⟩ =
      some (readBe64 (e8 ++ junk), ⟨srest, buf, pre.length + 8, e⟩) := by
  subst hb
  unfold decGet64
  dsimp only
  rw [if_pos (show pre.length + 8 ≤ (pre ++ (e8 ++ junk)).length by
    simp [List.length_append, h8])]
  rw [List.drop_left]

theorem decode_get_stream (t1 t0 l1 l0 : Nat) (key : Bytes) (m0 : Message)
    (hlen : l1 * 256 + l0 = key.length) :
    decode (0 :: t1 :: t0 :: l1 :: l0 :: key) m0 =
      .ok { m0 with kind := 0, tag := t1 * 256 + t0, key := key } := by
  simp only [decode]
  rw [decRead5_start]
  rw [show decGet8 ⟨key, [0, t1, t0, l1, l0], 0, none⟩ =
    some (0, ⟨key, [0, t1, t0, l1, l0], 1, none⟩) from rfl]
  dsimp only
  rw [show decGet16 ⟨key, [0, t1, t0, l1, l0], 1, none⟩ =
    some (t1 * 256 + t0, ⟨key, [0, t1, t0, l1, l0], 3, none⟩) from rfl]
  dsimp only
  rw [if_pos (show (0 : Nat) = kindGet from rfl)]
  rw [show decGet16 ⟨key, [0, t1, t0, l1, l0], 3, none⟩ =
    some (l1 * 256 + l0, ⟨key, [0, t1, t0, l1, l0], 5, none⟩) from rfl]
  dsimp only
  rw [hlen]
  obtain ⟨junk, hread⟩ := decRead_refill key.length 5 key key [] [0, t1, t0, l1, l0]
    (by simp) rfl
  rw [hread]
  rw [decGets_at0 key.length [] (key ++ junk) key junk none rfl rfl]
  rfl

theorem decode_authError_stream (k t1 t0 l1 l0 : Nat) (value : Bytes)
    (m0 : Message) (hk : k = 2 ∨ k = 3) (hlen : l1 * 256 + l0 = value.length) :
    decode (k :: t1 :: t0 :: l1 :: l0 :: value) m0 =
      .ok { m0 with kind := k, tag := t1 * 256 + t0, value := value } := by
  have hk0 : ¬ (k = kindGet) := by
    rcases hk with h | h <;> simp [h, kindGet]
  have hk1 : ¬ (k = kindPut) := by
    rcases hk with h | h <;> simp [h, kindPut]
  have hk23 : k = kindAuth ∨ k = kindError := by
    rcases hk with h | h
    · right
      exact h
    · left
      exact h
  simp only [decode]
  rw [decRead5_start]
  rw [show decGet8 ⟨value, [k, t1, t0, l1, l0], 0, none⟩ =
    some (k, ⟨value, [k, t1, t0, l1, l0], 1, none⟩) from rfl]
  dsimp only
  rw [show decGet16 ⟨value, [k, t1, t0, l1, l0], 1, none⟩ =
    some (t1 * 256 + t0, ⟨value, [k, t1, t0, l1, l0], 3, none⟩) from rfl]
  dsimp only
  rw [if_neg hk0, if_neg hk1, if_pos hk23]
  rw [show decGet16 ⟨value, [k, t1, t0, l1, l0], 3, none⟩ =
    some (l1 * 256 + l0, ⟨value, [k, t1, t0, l1, l0], 5, none⟩) from rfl]
  dsimp only
  rw [hlen]
  obtain ⟨junk, hread⟩ := decRead_refill value.length 5 value value []
    [k, t1, t0, l1, l0] (by simp) rfl
  rw [hread]
  rw [decGets_at0 value.length [] (value ++ junk) value junk none rfl rfl]
  rfl

theorem decode_put_stream (t1 t0 l1 l0 v1 v0 version : Nat) (key value : Bytes)
    (m0 : Message) (hklen : l1 * 256 + l0 = key.length)
    (hkb : key.length ≤ 65533) (hvlen : v1 * 256 + v0 = value.length)
    (hvb : value.length ≤ 65527) (hver : version < 2 ^ 64) :
    decode (1 :: t1 :: t0 :: l1 :: l0 ::
        (key ++ (v1 :: v0 :: (value ++ be64 version)))) m0 =
      .ok { m0 with kind := 1, tag := t1 * 256 + t0, key := key,
                    value := value, version := version } := by
  simp only [decode]
  rw [decRead5_start]
  rw [show decGet8 ⟨key ++ (v1 :: v0 :: (value ++ be64 version)),
      [1, t1, t0, l1, l0], 0, none⟩ =
    some (1, ⟨key ++ (v1 :: v0 :: (value ++ be64 version)),
      [1, t1, t0, l1, l0], 1, none⟩) from rfl]
  dsimp only
  rw [show decGet16 ⟨key ++ (v1 :: v0 :: (value ++ be64 version)),
      [1, t1, t0, l1, l0], 1, none⟩ =
    some (t1 * 256 + t0, ⟨key ++ (v1 :: v0 :: (value ++ be64 version)),
      [1, t1, t0, l1, l0], 3, none⟩) from rfl]
  dsimp only
  rw [if_neg (show ¬ ((1 : Nat) = kindGet) from by simp [kindGet])]
  rw [if_pos (show (1 : Nat) = kindPut from rfl)]
  rw [show decGet16 ⟨key ++ (v1 :: v0 :: (value ++ be64 version)),
      [1, t1, t0, l1, l0], 3, none⟩ =
    some (l1 * 256 + l0, ⟨key ++ (v1 :: v0 :: (value ++ be64 version)),
      [1, t1, t0, l1, l0], 5, none⟩) from rfl]
  dsimp only
  rw [hklen]
  rw [Nat.mod_eq_of_lt (show key.length + 2 < 65536 from by omega)]
  obtain ⟨junk1, hr1⟩ := decRead_refill (key.length + 2) 5
    (key ++ (v1 :: v0 :: (value ++ be64 version))) (key ++ [v1, v0])
    (value ++ be64 version) [1, t1, t0, l1, l0]
    (by simp) (by simp)
  rw [hr1]
  rw [decGets_at0 key.length (value ++ be64 version)
    ((key ++ [v1, v0]) ++ junk1) key ([v1, v0] ++ junk1) none
    (by simp [List.append_assoc]) rfl]
  dsimp only
  rw [decGet16_mid (value ++ be64 version) ((key ++ [v1, v0]) ++ junk1)
    key junk1 v1 v0 none (by simp [List.append_assoc])]
  dsimp only
  rw [hvlen]
  rw [Nat.mod_eq_of_lt (show value.length + 8 < 65536 from by omega)]
  obtain ⟨junk2, hr2⟩ := decRead_refill (value.length + 8) (key.length + 2)
    (value ++ be64 version) (value ++ be64 version) []
    ((key ++ [v1, v0]) ++ junk1) (by simp) (by simp [length_be64])
  rw [hr2]
  rw [decGets_at0 value.length [] ((value ++ be64 version) ++ junk2)
    value (be64 version ++ junk2) none (by simp [List.append_assoc]) rfl]
  dsimp only
  rw [decGet64_mid [] ((value ++ be64 version) ++ junk2) value
    (be64 version) junk2 none (by simp [List.append_assoc]) (length_be64 version)]
  dsimp only
  rw [readBe64_be64_append version junk2 hver]
  rfl

theorem decode_put_wrap_panics (t1 t0 : Nat) (key rest3 : Bytes)
    (m0 : Message) :
    decode (1 :: t1 :: t0 :: 255 :: 254 :: (key ++ rest3)) m0 = .panicked := by
  simp only [decode]
  rw [decRead5_start]
  rw [show decGet8 ⟨key ++ rest3, [1, t1, t0, 255, 254], 0, none⟩ =
    some (1, ⟨key ++ rest3, [1, t1, t0, 255, 254], 1, none⟩) from rfl]
  dsimp only
  rw [show decGet16 ⟨key ++ rest3, [1, t1, t0, 255, 254], 1, none⟩ =
    some (t1 * 256 + t0, ⟨key ++ rest3, [1, t1, t0, 255, 254], 3, none⟩) from rfl]
  dsimp only
  rw [if_neg (show ¬ ((1 : Nat) = kindGet) from by simp [kindGet])]
  rw [if_pos (show (1 : Nat) = kindPut from rfl)]
  rw [show decGet16 ⟨key ++ rest3, [1, t1, t0, 255, 254], 3, none⟩ =
    some (255 * 256 + 254, ⟨key ++ rest3, [1, t1, t0, 255, 254], 5, none⟩) from rfl]
  dsimp only
  rw [show (255 * 256 + 254 + 2) % 65536 = 0 from by norm_num]
  have hdr0 : decRead 0 ⟨key ++ rest3, [1, t1, t0, 255, 254], 5, none⟩ =
      ⟨key ++ rest3, [1, t1, t0, 255, 254], 0, none⟩ := by
    unfold decRead
    dsimp only
    rw [if_neg (by simp)]
    rw [if_pos (Nat.zero_le _)]
    rfl
  rw [hdr0]
  rw [decGets_none (255 * 256 + 254)
    ⟨key ++ rest3, [1, t1, t0, 255, 254], 0, none⟩ (by norm_num)]

end CryptFS

/-- C1 (counterexample): on the empty store, `put(0, k, val)` succeeds, while
the claim demands it be rejected with `StalePut` (absent key requires
`v ≥ 1` per the claim). -/
theorem C1_counterexample :
    CryptFS.versionedPut [] 0 [1] [2] =
        .ok [([1], CryptFS.be64 0 ++ [2])] ∧
      CryptFS.versionedPut [] 0 [1] [2] ≠ .stale := by
  constructor
  · rfl
  · decide

/-- C1 (amended): over a well-formed versioned-store state, `put(v, k, val)`
succeeds exactly when no entry for `k` exists (any `v`, including 0) or
`v ≥ stored + 1` (computed mod `2^64`); every other put — i.e. `v ≤ stored`
— fails with `StalePut`.  In particular a put whose version skips ahead of
the successor is accepted, not rejected. -/
theorem C1_versionedPut_amended (m : CryptFS.Mem) (version : Nat)
    (key value : CryptFS.Bytes) (hwf : CryptFS.VersionedWF m)
    (hv : version < 2 ^ 64) :
    (CryptFS.memGet m key = none →
      CryptFS.versionedPut m version key value =
        .ok (CryptFS.memPut key (CryptFS.be64 version ++ value) m)) ∧
    (∀ curr, CryptFS.memGet m key = some curr →
      CryptFS.versionedPut m version key value =
        if version < (CryptFS.readBe64 curr + 1) % 2 ^ 64 then .stale
        else .ok (CryptFS.memPut key (CryptFS.be64 version ++ value) m)) := by
  refine ⟨fun h => CryptFS.versionedPut_notFound m version key value h, ?_⟩
  intro curr h
  exact CryptFS.versionedPut_present m version key value curr h hwf hv

/-- C1 witness: a stale put (v = 1 against stored version 3) fails, and a
skipping put (v = 9 against stored version 3) succeeds, on a concrete store. -/
theorem C1_versionedPut_amended_witness :
    CryptFS.versionedPut [([1], CryptFS.be64 3 ++ [7])] 1 [1] [9] = .stale ∧
      CryptFS.versionedPut [([1], CryptFS.be64 3 ++ [7])] 9 [1] [9] =
        .ok (CryptFS.memPut [1] (CryptFS.be64 9 ++ [9])
          [([1], CryptFS.be64 3 ++ [7])]) := by
  have h₁ := (C1_versionedPut_amended [([1], CryptFS.be64 3 ++ [7])] 1 [1] [9]
    (by decide) (by norm_num)).2 (CryptFS.be64 3 ++ [7]) (by decide)
  have h₂ := (C1_versionedPut_amended [([1], CryptFS.be64 3 ++ [7])] 9 [1] [9]
    (by decide) (by norm_num)).2 (CryptFS.be64 3 ++ [7]) (by decide)
  constructor
  · rw [h₁, if_pos (by decide)]
  · rw [h₂, if_neg (by decide)]

/-- C6: `blob.put(v)` returns the key `H(v)`; two puts of the same value
return the same key; and over a raw store honouring the put/get contract,
`blob.get(blob.put(v))` returns `v`. -/
theorem C6_blob_roundtrip {σ : Type} (H : CryptFS.Bytes → CryptFS.Bytes)
    (r : CryptFS.RawStore σ) (s s₂ : σ) (v : CryptFS.Bytes)
    (hc : CryptFS.RawContract r) :
    (CryptFS.blobPut H r s v).1 = H v ∧
    (CryptFS.blobPut H r s₂ v).1 = (CryptFS.blobPut H r s v).1 ∧
    CryptFS.blobGet r (CryptFS.blobPut H r s v).2.1 (CryptFS.blobPut H r s v).1 =
      .ok v := by
  refine ⟨rfl, rfl, ?_⟩
  have h := hc s (H v) v
  simp only [CryptFS.blobPut, CryptFS.blobGet]
  exact h.2

/-- C6 witness: instantiate with the repository's in-memory raw store and a
stand-in hash; the contract holds and the round trip succeeds concretely. -/
theorem C6_blob_roundtrip_witness :
    (CryptFS.blobPut (fun b => 7 :: b) CryptFS.memRawStore [] [1, 2]).1 =
        [7, 1, 2] ∧
      CryptFS.blobGet CryptFS.memRawStore
        (CryptFS.blobPut (fun b => 7 :: b) CryptFS.memRawStore [] [1, 2]).2.1
        [7, 1, 2] = .ok [1, 2] := by
  have h := C6_blob_roundtrip (fun b => 7 :: b) CryptFS.memRawStore [] []
    [1, 2] CryptFS.memRawStore_contract
  exact ⟨h.1, h.2.2⟩

/-- C2 (code evaluated at the failing input): with an empty fast store and a
slow store holding key `[1]`, `Paired.Get` returns `ErrNotFound` and never
consults the slow store — the early `err != nil` return fires on the fast
store's `ErrNotFound` before the `errors.Is` test, contradicting both the
claim and the code's own doc comment. -/
theorem C2_pairedGet_failing_input :
    CryptFS.pairedGet [] [([1], [2])] [1] =
      ((none, some .notFound), [.fastGet]) := by
  decide

/-- C9: configuring a non-empty auth hash without a TLS key pair makes
`Listen` fail with `PasswordWithoutTLS` before any listener is bound, while
with a TLS key pair configured the auth hash can never produce that error. -/
theorem C9_listen_passwordWithoutTLS (env : CryptFS.ListenEnv)
    (o : CryptFS.SrvOptions) :
    (o.tls = false → o.authHash ≠ "" →
      CryptFS.listen env o = (.error .passwordWithoutTLS, [])) ∧
    (o.tls = true →
      (CryptFS.listen env o).1 ≠ .error .passwordWithoutTLS) := by
  constructor
  · intro htls hauth
    simp [CryptFS.listen, htls, hauth]
  · intro htls
    simp only [CryptFS.listen, htls, if_true]
    match env.loadKeyPair with
    | some _ => simp
    | none =>
      match env.tlsListen with
      | .error _ => simp
      | .ok addr => simp

/-- C9 witness: concrete options exercising both sides — plain TCP with an
auth hash fails with `PasswordWithoutTLS`; TLS with the same auth hash does
not produce that error. -/
theorem C9_listen_passwordWithoutTLS_witness :
    CryptFS.listen ⟨none, .ok "a", .ok "a"⟩ ⟨false, "h"⟩ =
        (.error .passwordWithoutTLS, []) ∧
      (CryptFS.listen ⟨none, .ok "a", .ok "a"⟩ ⟨true, "h"⟩).1 ≠
        .error .passwordWithoutTLS := by
  constructor
  · exact (C9_listen_passwordWithoutTLS ⟨none, .ok "a", .ok "a"⟩
      ⟨false, "h"⟩).1 rfl (by decide)
  · exact (C9_listen_passwordWithoutTLS ⟨none, .ok "a", .ok "a"⟩
      ⟨true, "h"⟩).2 rfl

/-- C10: `DiskStore.Put` returns `nil` exactly when the initial write fails,
returns the "could not write" error when the initial write succeeds, and the
create-parent-directory-and-retry branch (`MkdirAll`) is unreachable. -/
theorem C10_diskPut_inverted (env : CryptFS.DiskEnv) :
    (env.write1 ≠ none → CryptFS.diskPut env = (none, [.writeFile])) ∧
    (env.write1 = none →
      CryptFS.diskPut env = (some .couldNotWrite, [.writeFile])) ∧
    CryptFS.DiskEff.mkdirAll ∉ (CryptFS.diskPut env).2 := by
  refine ⟨?_, ?_, ?_⟩
  · intro h
    match henv : env.write1 with
    | some e => simp [CryptFS.diskPut, henv]
    | none => exact absurd henv h
  · intro h
    simp [CryptFS.diskPut, h, CryptFS.osIsNotExist]
  · match henv : env.write1 with
    | some e => simp [CryptFS.diskPut, henv]
    | none => simp [CryptFS.diskPut, henv, CryptFS.osIsNotExist]

/-- C10 witness: a failing first write yields `nil`; a succeeding first write
yields the "could not write" error. -/
theorem C10_diskPut_inverted_witness :
    CryptFS.diskPut ⟨some ⟨false⟩, none, none⟩ = (none, [.writeFile]) ∧
      CryptFS.diskPut ⟨none, none, none⟩ =
        (some .couldNotWrite, [.writeFile]) := by
  constructor
  · exact (C10_diskPut_inverted ⟨some ⟨false⟩, none, none⟩).1 (by decide)
  · exact (C10_diskPut_inverted ⟨none, none, none⟩).2.1 rfl

/-- C3 (counterexample): with key `[1]` registered at arena index 0,
`ExistingNode` leaves the registry entry unchanged but returns a freshly
allocated node (arena index 1), not the already-registered node at index 0,
refuting "returns the already-registered node, not a new one". -/
theorem C3_counterexample :
    CryptFS.knownLookup
        (CryptFS.Factory.mk [⟨"a", [1], 0⟩] [([1], 0)]).known [1] = some 0 ∧
      (CryptFS.existingNode ⟨[⟨"a", [1], 0⟩], [([1], 0)]⟩ "b" [1]).2 = 1 ∧
      (CryptFS.existingNode ⟨[⟨"a", [1], 0⟩], [([1], 0)]⟩ "b" [1]).2 ≠ 0 := by
  refine ⟨by decide, rfl, by decide⟩

/-- C3 (amended): re-registering an already-known key leaves the registry
and the already-registered arena entries unchanged, but `ExistingNode`
returns a freshly allocated node (the new arena tail index), which is not
the registered one. -/
theorem C3_existingNode_amended (f : CryptFS.Factory) (name : String)
    (key : CryptFS.Bytes) (p : Nat) (hwf : CryptFS.FactoryWF f)
    (hreg : CryptFS.knownLookup f.known key = some p) :
    (CryptFS.existingNode f name key).1.known = f.known ∧
    (CryptFS.existingNode f name key).1.heap.take f.heap.length = f.heap ∧
    (CryptFS.existingNode f name key).2 = f.heap.length ∧
    (CryptFS.existingNode f name key).2 ≠ p := by
  have hp : p < f.heap.length := hwf (key, p) (CryptFS.knownLookup_mem hreg)
  have hkey : ((f.heap ++ [(⟨name, key, CryptFS.modeNotLoaded⟩ : CryptFS.NodeRec)]).getD
      f.heap.length default).key = key := by
    rw [CryptFS.getD_append_length]
  refine ⟨?_, ?_, ?_, ?_⟩
  · simp only [CryptFS.existingNode, CryptFS.addKnown, hkey, hreg]
  · simp only [CryptFS.existingNode, CryptFS.addKnown, hkey, hreg]
    exact List.take_left f.heap [⟨name, key, CryptFS.modeNotLoaded⟩]
  · rfl
  · simp only [CryptFS.existingNode]
    omega

/-- C3 witness: concrete factory with `[1]` registered at index 0; the
registry is untouched and the returned node is the fresh index 1 ≠ 0. -/
theorem C3_existingNode_amended_witness :
    (CryptFS.existingNode ⟨[⟨"a", [1], 0⟩], [([1], 0)]⟩ "b" [1]).1.known =
        [([1], 0)] ∧
      (CryptFS.existingNode ⟨[⟨"a", [1], 0⟩], [([1], 0)]⟩ "b" [1]).2 ≠ 0 := by
  have h := C3_existingNode_amended ⟨[⟨"a", [1], 0⟩], [([1], 0)]⟩ "b" [1] 0
    (by decide) (by decide)
  exact ⟨h.1, h.2.2.2⟩

/-- C4: `sync` behaves as specified — content phase: on blob error return
`EIO` with no flag cleared (the content key does take the returned key, per
the Go multiple assignment); on blob success clear `should_save_content`,
update `content_key`, set `should_save_metadata` exactly when the key
changed, then run the metadata phase; metadata phase: versioned-put the
serialized node at `version + 1`; on success bump the version by exactly 1
and clear the flag; on `StalePut` set `should_reload_metadata` and return
`EIO`; on any other error return `EIO` clearing nothing. -/
theorem C4_sync_spec (env : CryptFS.SyncEnv) (s : CryptFS.NodeSt) :
    (s.shouldSaveContent = true → (env.blobPutR s.content).2 ≠ none →
      CryptFS.sync env s =
        ({ s with contentKey := (env.blobPutR s.content).1 }, .eio)) ∧
    (s.shouldSaveContent = true → (env.blobPutR s.content).2 = none →
      CryptFS.sync env s = CryptFS.syncMeta env
        { s with contentKey := (env.blobPutR s.content).1,
                 shouldSaveContent := false,
                 shouldSaveMetadata :=
                   if s.contentKey = (env.blobPutR s.content).1 then
                     s.shouldSaveMetadata
                   else true }) ∧
    (s.shouldSaveContent = false → CryptFS.sync env s = CryptFS.syncMeta env s) ∧
    (∀ t : CryptFS.NodeSt,
      (t.shouldSaveMetadata = false → CryptFS.syncMeta env t = (t, .ok)) ∧
      (t.shouldSaveMetadata = true →
        (env.metaPutR (t.version + 1) t.key (env.serializeR t) = none →
          CryptFS.syncMeta env t =
            ({ t with version := t.version + 1, shouldSaveMetadata := false },
              .ok)) ∧
        (env.metaPutR (t.version + 1) t.key (env.serializeR t) = some .stale →
          CryptFS.syncMeta env t =
            ({ t with shouldReloadMetadata := true }, .eio)) ∧
        (env.metaPutR (t.version + 1) t.key (env.serializeR t) = some .other →
          CryptFS.syncMeta env t = (t, .eio)))) := by
  refine ⟨?_, ?_, ?_, ?_⟩
  · intro hc herr
    rcases hb : env.blobPutR s.content with ⟨k, e⟩
    rw [hb] at herr
    simp only at herr
    cases e with
    | none => exact absurd rfl herr
    | some u => simp [CryptFS.sync, hc, hb]
  · intro hc herr
    rcases hb : env.blobPutR s.content with ⟨k, e⟩
    rw [hb] at herr
    simp only at herr
    subst herr
    by_cases hk : s.contentKey = k
    · simp [CryptFS.sync, hc, hb, hk]
    · simp [CryptFS.sync, hc, hb, hk]
  · intro hc
    simp [CryptFS.sync, hc]
  · intro t
    refine ⟨?_, ?_⟩
    · intro hm
      simp [CryptFS.syncMeta, hm]
    · intro hm
      refine ⟨?_, ?_, ?_⟩
      · intro hput
        simp [CryptFS.syncMeta, CryptFS.saveMetadata, hm, hput]
      · intro hput
        simp [CryptFS.syncMeta, CryptFS.saveMetadata, hm, hput]
      · intro hput
        simp [CryptFS.syncMeta, CryptFS.saveMetadata, hm, hput]

/-- C4 witness: a node with dirty content whose blob put fails gets `EIO`
with all three flags untouched; one with dirty metadata and a clean
versioned put gets its version bumped by exactly 1 and the flag cleared. -/
theorem C4_sync_spec_witness :
    CryptFS.sync ⟨fun _ => ([9], some ()), fun _ => [], fun _ _ _ => none⟩
        ⟨true, false, true, [3], 5, [2], [7], []⟩ =
      ({ shouldSaveMetadata := true, shouldReloadMetadata := false,
         shouldSaveContent := true, key := [3], version := 5,
         contentKey := [9], content := [7], xattrs := [] }, .eio) ∧
    CryptFS.syncMeta ⟨fun _ => ([9], some ()), fun _ => [], fun _ _ _ => none⟩
        ⟨true, false, false, [3], 5, [2], [7], []⟩ =
      ({ shouldSaveMetadata := false, shouldReloadMetadata := false,
         shouldSaveContent := false, key := [3], version := 6,
         contentKey := [2], content := [7], xattrs := [] }, .ok) := by
  constructor
  · exact (C4_sync_spec ⟨fun _ => ([9], some ()), fun _ => [], fun _ _ _ => none⟩
      ⟨true, false, true, [3], 5, [2], [7], []⟩).1 rfl (by decide)
  · exact ((C4_sync_spec ⟨fun _ => ([9], some ()), fun _ => [], fun _ _ _ => none⟩
      ⟨true, false, true, [3], 5, [2], [7], []⟩).2.2.2
      ⟨true, false, false, [3], 5, [2], [7], []⟩).2 rfl |>.1 rfl

/-- C7: `Setxattr` with `XATTR_CREATE` fails with `EEXIST` when the attribute
exists and with `XATTR_REPLACE` fails with `ENODATA` when it is absent, both
leaving the node unchanged; and whenever the call does not succeed, the
xattrs mapping observable afterwards equals the pre-operation mapping (the
added attribute is removed, or the replaced value restored). -/
theorem C7_setxattr_flags_rollback (env : CryptFS.SyncEnv) (s : CryptFS.NodeSt)
    (attr : String) (data : CryptFS.Bytes) (flags : Nat) :
    (flags = CryptFS.xattrCreate → (CryptFS.xlookup s.xattrs attr).isSome →
      CryptFS.setxattr env s attr data flags = (s, .eexist)) ∧
    (flags = CryptFS.xattrReplace → CryptFS.xlookup s.xattrs attr = none →
      CryptFS.setxattr env s attr data flags = (s, .enodata)) ∧
    ((CryptFS.setxattr env s attr data flags).2 ≠ .ok →
      ∀ x, CryptFS.xlookup (CryptFS.setxattr env s attr data flags).1.xattrs x =
        CryptFS.xlookup s.xattrs x) := by
  refine ⟨?_, ?_, ?_⟩
  · intro hf hsome
    simp [CryptFS.setxattr, hf, hsome]
  · intro hf hnone
    have : ¬ (CryptFS.xattrReplace = CryptFS.xattrCreate ∧
        (CryptFS.xlookup s.xattrs attr).isSome) := by
      simp [CryptFS.xattrReplace, CryptFS.xattrCreate]
    simp [CryptFS.setxattr, hf, hnone, this]
  · intro hfail x
    by_cases h1 : flags = CryptFS.xattrCreate ∧ (CryptFS.xlookup s.xattrs attr).isSome
    · simp [CryptFS.setxattr, h1]
    · by_cases h2 : flags = CryptFS.xattrReplace ∧
          CryptFS.xlookup s.xattrs attr = none
      · simp [CryptFS.setxattr, h1, h2]
      · have hx : (CryptFS.sync env
            { s with xattrs := CryptFS.xinsert attr data s.xattrs,
                     shouldSaveMetadata := true }).1.xattrs =
            CryptFS.xinsert attr data s.xattrs :=
          CryptFS.sync_xattrs env _
        simp only [CryptFS.setxattr, h1, h2, if_false] at hfail ⊢
        rcases hsy : CryptFS.sync env
            { s with xattrs := CryptFS.xinsert attr data s.xattrs,
                     shouldSaveMetadata := true } with ⟨t, errno⟩
        rw [hsy] at hfail hx
        simp only at hx
        by_cases he : errno = CryptFS.Errno.ok
        · subst he
          simp at hfail
        · simp only [ne_eq, he, not_false_eq_true, if_true, if_pos]
          rcases hrb : CryptFS.xlookup s.xattrs attr with _ | v
          · simp only [hrb]
            by_cases hax : attr = x
            · subst hax
              simp [CryptFS.xlookup_xdelete_same, hrb]
            · rw [CryptFS.xlookup_xdelete_ne attr x t.xattrs hax, hx,
                CryptFS.xlookup_xinsert_ne attr x data s.xattrs hax]
          · simp only [hrb]
            by_cases hax : attr = x
            · subst hax
              rw [CryptFS.xlookup_xinsert_same, hrb]
            · rw [CryptFS.xlookup_xinsert_ne attr x v t.xattrs hax, hx,
                CryptFS.xlookup_xinsert_ne attr x data s.xattrs hax]

/-- C7 witness: with `XATTR_CREATE` on a present attribute the call fails
with `EEXIST` leaving the node untouched; and with a failing metadata put,
a plain (flags 0) replace of attribute "k" is rolled back to its old value. -/
theorem C7_setxattr_flags_rollback_witness :
    CryptFS.setxattr ⟨fun b => (b, none), fun _ => [], fun _ _ _ => none⟩
        ⟨false, false, false, [3], 5, [2], [7], [("k", [1])]⟩ "k" [9] 1 =
      (⟨false, false, false, [3], 5, [2], [7], [("k", [1])]⟩, .eexist) ∧
    ∀ x, CryptFS.xlookup
        (CryptFS.setxattr ⟨fun b => (b, none), fun _ => [], fun _ _ _ => some .other⟩
          ⟨false, false, false, [3], 5, [2], [7], [("k", [1])]⟩ "k" [9] 0).1.xattrs
        x =
      CryptFS.xlookup [("k", [1])] x := by
  constructor
  · exact (C7_setxattr_flags_rollback
      ⟨fun b => (b, none), fun _ => [], fun _ _ _ => none⟩
      ⟨false, false, false, [3], 5, [2], [7], [("k", [1])]⟩ "k" [9] 1).1 rfl
      (by decide)
  · exact (C7_setxattr_flags_rollback
      ⟨fun b => (b, none), fun _ => [], fun _ _ _ => some .other⟩
      ⟨false, false, false, [3], 5, [2], [7], [("k", [1])]⟩ "k" [9] 0).2.2
      (by decide)

/-- C5 (counterexample): a well-formed PUT message whose key is 65534 bytes
(within the claim's "at most 65535") encodes fine, but decoding crashes: the
decoder's `uint16` computation `n+2` wraps to 0, it reads no body bytes, and
`gets(n)` slices past the 5-byte buffer (a Go runtime panic), so the
round trip does not return the message. -/
theorem C5_counterexample :
    CryptFS.encode ⟨CryptFS.kindPut, 0, List.replicate 65534 0, [], 0⟩ =
        some (1 :: 0 :: 0 :: 255 :: 254 ::
          (List.replicate 65534 0 ++ [0, 0, 0, 0, 0, 0, 0, 0, 0, 0])) ∧
      CryptFS.decode (1 :: 0 :: 0 :: 255 :: 254 ::
          (List.replicate 65534 0 ++ [0, 0, 0, 0, 0, 0, 0, 0, 0, 0]))
        CryptFS.mzero = .panicked := by
  constructor
  · rw [CryptFS.encode_put_eq ⟨CryptFS.kindPut, 0, List.replicate 65534 0, [], 0⟩ rfl]
    norm_num [CryptFS.put16Bytes, CryptFS.be64, CryptFS.kindPut]
  · exact CryptFS.decode_put_wrap_panics 0 0 (List.replicate 65534 0)
      [0, 0, 0, 0, 0, 0, 0, 0, 0, 0] CryptFS.mzero

/-- C5 (amended): the codec round trip `decode (encode m) = m` (on the
kind-relevant fields, decoding into a zero message) holds for every
well-formed message whose tag fits `uint16` and version fits `uint64`, with
key at most 65535 bytes for GET and value at most 65535 bytes for
ERROR/AUTH, but for PUT only with key at most 65533 and value at most 65527
bytes (the decoder's `uint16` reads `n+2` and `n+8` wrap beyond that). -/
theorem C5_roundtrip_amended (m : CryptFS.Message) (htag : m.tag < 65536)
    (hver : m.version < 2 ^ 64) :
    (m.kind = CryptFS.kindGet → m.key.length ≤ 65535 →
      ∃ bytes, CryptFS.encode m = some bytes ∧
        CryptFS.decode bytes CryptFS.mzero = .ok ⟨m.kind, m.tag, m.key, [], 0⟩) ∧
    (m.kind = CryptFS.kindPut → m.key.length ≤ 65533 → m.value.length ≤ 65527 →
      ∃ bytes, CryptFS.encode m = some bytes ∧
        CryptFS.decode bytes CryptFS.mzero =
          .ok ⟨m.kind, m.tag, m.key, m.value, m.version⟩) ∧
    ((m.kind = CryptFS.kindAuth ∨ m.kind = CryptFS.kindError) →
      m.value.length ≤ 65535 →
      ∃ bytes, CryptFS.encode m = some bytes ∧
        CryptFS.decode bytes CryptFS.mzero = .ok ⟨m.kind, m.tag, [], m.value, 0⟩) := by
  refine ⟨?_, ?_, ?_⟩
  · intro hk hb
    refine ⟨_, CryptFS.encode_get_eq m hk, ?_⟩
    rw [hk]
    simp only [CryptFS.kindGet, CryptFS.put16Bytes, List.cons_append,
      List.nil_append, Nat.zero_mod]
    rw [CryptFS.decode_get_stream (m.tag / 256 % 256) (m.tag % 256)
      (m.key.length / 256 % 256) (m.key.length % 256) m.key CryptFS.mzero
      (by omega)]
    rw [show m.tag / 256 % 256 * 256 + m.tag % 256 = m.tag from by omega]
    try rfl
  · intro hk hb1 hb2
    refine ⟨_, CryptFS.encode_put_eq m hk, ?_⟩
    rw [hk]
    simp only [CryptFS.kindPut, CryptFS.put16Bytes, List.cons_append,
      List.nil_append]
    rw [CryptFS.decode_put_stream (m.tag / 256 % 256) (m.tag % 256)
      (m.key.length / 256 % 256) (m.key.length % 256)
      (m.value.length / 256 % 256) (m.value.length % 256) m.version
      m.key m.value CryptFS.mzero (by omega) hb1 (by omega) hb2 hver]
    rw [show m.tag / 256 % 256 * 256 + m.tag % 256 = m.tag from by omega]
  · intro hk hb
    refine ⟨_, CryptFS.encode_authError_eq m hk, ?_⟩
    rw [show m.kind % 256 = m.kind from by
      rcases hk with h | h <;> simp [h, CryptFS.kindAuth, CryptFS.kindError]]
    simp only [CryptFS.put16Bytes, List.cons_append, List.nil_append]
    rw [CryptFS.decode_authError_stream m.kind (m.tag / 256 % 256)
      (m.tag % 256) (m.value.length / 256 % 256) (m.value.length % 256)
      m.value CryptFS.mzero
      (by rcases hk with h | h <;> simp [h, CryptFS.kindAuth, CryptFS.kindError])
      (by omega)]
    rw [show m.tag / 256 % 256 * 256 + m.tag % 256 = m.tag from by omega]
    try rfl

/-- C5 witness: concrete round trips for a GET and a PUT message, through
the amended theorem. -/
theorem C5_roundtrip_amended_witness :
    (∃ bytes, CryptFS.encode ⟨CryptFS.kindGet, 4, [9, 9], [], 0⟩ = some bytes ∧
      CryptFS.decode bytes CryptFS.mzero = .ok ⟨CryptFS.kindGet, 4, [9, 9], [], 0⟩) ∧
    (∃ bytes, CryptFS.encode ⟨CryptFS.kindPut, 777, [1], [2, 3], 99⟩ = some bytes ∧
      CryptFS.decode bytes CryptFS.mzero =
        .ok ⟨CryptFS.kindPut, 777, [1], [2, 3], 99⟩) := by
  constructor
  · exact (C5_roundtrip_amended ⟨CryptFS.kindGet, 4, [9, 9], [], 0⟩
      (by norm_num) (by norm_num)).1 rfl (by norm_num)
  · exact (C5_roundtrip_amended ⟨CryptFS.kindPut, 777, [1], [2, 3], 99⟩
      (by norm_num) (by norm_num)).2.1 rfl (by norm_num) (by norm_num)

/-- C8 (code evaluated at the failing input): an AUTH message with tag 7
applied to the empty store gets an ERROR reply with the request's tag but
with text "messages of kind %!s(message.Kind=3) cannot be applied" — the
`Kind` Stringer is misspelled `STring`, so `fmt` emits its bad-verb notice
instead of the kind name — while the claim (and the intent, witnessed by
`Kind.STring` returning "AUTH") demands "messages of kind AUTH cannot be
applied". -/
theorem C8_applyMessage_failing_input :
    CryptFS.applyMessage [] ⟨"nf", "st"⟩ ⟨CryptFS.kindAuth, 7, [], [], 0⟩ =
        some (⟨CryptFS.kindError, 7, [],
          CryptFS.strToBytes "messages of kind %!s(message.Kind=3) cannot be applied",
          0⟩, []) ∧
      CryptFS.kindSTring CryptFS.kindAuth = "AUTH" ∧
      "messages of kind %!s(message.Kind=3) cannot be applied" ≠
        "messages of kind AUTH cannot be applied" ∧
      CryptFS.strToBytes "messages of kind %!s(message.Kind=3) cannot be applied" ≠
        CryptFS.strToBytes "messages of kind AUTH cannot be applied" := by
  refine ⟨rfl, rfl, by decide, by decide⟩
